import Mathlib

/-!
Verification of the memory-manager / thumbnail-cache / batch-pipeline core of
the photo-folder-organizer repository, as a shallow embedding in Lean.

Conventions of the embedding:
* object URLs, files and fingerprint keys are modelled as natural numbers
  (`URL.createObjectURL` is an allocator of fresh handles);
* JavaScript `Map` and `Set` are modelled as insertion-ordered lists
  (`Map.set` on a fresh key appends; `delete` removes by key keeping order;
  iteration order is list order), matching the ECMAScript ordering guarantees;
* `Date` values are their millisecond timestamps (`getTime`), an `Int`;
* nullable values are `Option`; a function that can throw returns `Except`;
* `Array.prototype.sort` (stable per ECMA-262) is modelled by
  `List.insertionSort`, which is the textbook stable sort.
-/

namespace PhotoOrg

/-! ### BoundedCanvasCache (memoryManager.ts, createThumbnailUrl lines 28-50) -/

/-- Capacity of the canvas cache, `MAX_CACHE_SIZE` in memoryManager.ts. -/
def MAX_CACHE_SIZE : Nat := 50

/-- The cache-management slice of `createThumbnailUrl`: on a cache hit the map
is unchanged (the cached canvas is reused); on a miss, if the cache already
holds at least `MAX_CACHE_SIZE` entries the first (earliest-inserted) key is
deleted, then the new entry is appended (`Map.set` with a fresh key). -/
def canvasCacheInsert (cache : List (Nat × Nat)) (key val : Nat) :
    List (Nat × Nat) :=
  if key ∈ cache.map Prod.fst then cache
  else
    let trimmed := if MAX_CACHE_SIZE ≤ cache.length then cache.drop 1 else cache
    trimmed ++ [(key, val)]

/-- Folding a whole sequence of `createThumbnailUrl` cache operations over the
initially empty canvas cache. -/
def canvasCacheRun (ops : List (Nat × Nat)) : List (Nat × Nat) :=
  ops.foldl (fun c kv => canvasCacheInsert c kv.1 kv.2) []

/-! ### MemoryManager state (memoryManager.ts) -/

/-- A registered cleanup callback, abstracted by its outcome when invoked:
`Except.ok ()` for a callback that returns normally, `Except.error ()` for one
that throws. -/
abbrev CleanupCallback := Except Unit Unit

/-- The mutable fields of the `MemoryManager` singleton: the tracked object-URL
set (insertion-ordered, as a JS `Set`), the canvas cache (insertion-ordered, as
a JS `Map`), the registered cleanup callbacks, and the monitoring flag. -/
structure MMState where
  objectUrls : List Nat
  canvasCache : List (Nat × Nat)
  cleanupCallbacks : List CleanupCallback
  isMonitoring : Bool

/-- Invoking a list of callbacks the way `cleanup` and `performEmergencyCleanup`
do: each call sits in its own `try`/`catch`, so a throwing callback is caught
and the loop continues; the result counts how many callbacks were invoked. -/
def runCallbacksCaught : List CleanupCallback → Nat
  | [] => 0
  | cb :: rest =>
    match cb with
    | Except.ok _ => runCallbacksCaught rest + 1
    | Except.error _ => runCallbacksCaught rest + 1

/-- Result of a cleanup pass: the new manager state, the object URLs passed to
`URL.revokeObjectURL` during the pass (in order, with multiplicity), and how
many cleanup callbacks were invoked. The function is total: the source method
never throws, because every callback invocation is wrapped in `try`/`catch`. -/
structure CleanupReport where
  state : MMState
  revoked : List Nat
  callbacksRun : Nat

/-- Model of `performEmergencyCleanup` (memoryManager.ts lines 299-326): deletes the
first `floor(n/2)` canvas-cache entries, revokes and untracks all but the last
20 tracked object URLs when more than 20 are tracked, and invokes every
registered cleanup callback under `try`/`catch`. -/
def performEmergencyCleanup (s : MMState) : CleanupReport :=
  let cache := s.canvasCache.drop (s.canvasCache.length / 2)
  let urls := s.objectUrls
  let removed := if 20 < urls.length then urls.take (urls.length - 20) else []
  let kept := if 20 < urls.length then urls.drop (urls.length - 20) else urls
  { state := { s with canvasCache := cache, objectUrls := kept },
    revoked := removed,
    callbacksRun := runCallbacksCaught s.cleanupCallbacks }

/-- Model of `revokeObjectUrl` (memoryManager.ts lines 182-187): revokes and removes the
URL only when it is currently tracked; otherwise it does nothing. -/
def revokeObjectUrl (s : MMState) (url : Nat) : MMState × List Nat :=
  if url ∈ s.objectUrls then
    ({ s with objectUrls := s.objectUrls.erase url }, [url])
  else (s, [])

/-- Model of `cleanup` (memoryManager.ts lines 192-210): revokes every tracked URL,
clears the URL set and the canvas cache, invokes every cleanup callback under
`try`/`catch`, and stops monitoring. The callback registry itself is not
cleared. -/
def cleanup (s : MMState) : CleanupReport :=
  { state :=
      { s with objectUrls := [], canvasCache := [], isMonitoring := false },
    revoked := s.objectUrls,
    callbacksRun := runCallbacksCaught s.cleanupCallbacks }

/-! ### Memory statistics and monitoring (memoryManager.ts lines 215-334) -/

/-- The host heap counters exposed by `performance.memory` when present. -/
structure HeapInfo where
  usedJSHeapSize : ℚ
  totalJSHeapSize : ℚ
  jsHeapSizeLimit : ℚ

/-- The `systemMemory` record computed by `getMemoryStats`. -/
structure SystemMemoryStats where
  usedJSHeapSize : ℚ
  totalJSHeapSize : ℚ
  jsHeapSizeLimit : ℚ
  utilization : ℚ

/-- The sample returned by `getMemoryStats` (the `estimatedMemoryUsage` string
is omitted; it is a pure formatting of the two counts). -/
structure MemoryStats where
  objectUrlCount : Nat
  canvasCacheSize : Nat
  systemMemory : Option SystemMemoryStats

/-- Model of `getMemoryStats` (memoryManager.ts lines 215-248), parameterised by the
optional host heap-introspection capability (`performance.memory`). -/
def getMemoryStats (heap : Option HeapInfo) (s : MMState) : MemoryStats :=
  { objectUrlCount := s.objectUrls.length,
    canvasCacheSize := s.canvasCache.length,
    systemMemory := heap.map (fun m =>
      { usedJSHeapSize := m.usedJSHeapSize,
        totalJSHeapSize := m.totalJSHeapSize,
        jsHeapSizeLimit := m.jsHeapSizeLimit,
        utilization := m.usedJSHeapSize / m.jsHeapSizeLimit * 100 }) }

/-- The constant `MEMORY_THRESHOLD` in memoryManager.ts (percent). -/
def MEMORY_THRESHOLD : ℚ := 80

/-- Model of `isMemoryUsageHigh` (memoryManager.ts lines 331-334): false whenever the
host exposes no heap counters. -/
def isMemoryUsageHigh (heap : Option HeapInfo) (s : MMState) : Bool :=
  match (getMemoryStats heap s).systemMemory with
  | some m => decide (MEMORY_THRESHOLD < m.utilization)
  | none => false

/-- One tick of the periodic monitoring loop installed by `startMonitoring`
(memoryManager.ts lines 266-283): emergency cleanup runs only when
`systemMemory` is present and utilization exceeds the threshold. -/
def monitorTick (heap : Option HeapInfo) (s : MMState) : CleanupReport :=
  match (getMemoryStats heap s).systemMemory with
  | some m =>
    if MEMORY_THRESHOLD < m.utilization then performEmergencyCleanup s
    else { state := s, revoked := [], callbacksRun := 0 }
  | none => { state := s, revoked := [], callbacksRun := 0 }

/-! ### Batch processing (memoryManager.ts, processImageBatch lines 145-164) -/

/-- Model of `processImageBatch`: the items are processed in slices of `batchSize`.
Inside a batch every item is awaited (`Promise.all(batch.map(processor))`), the
batch results are appended in order, and between batches only a yield/GC hint
happens (no observable effect on the results). The model is given as a pure
recursion over the list; note that the source loop `i += batchSize` never
terminates for `batchSize = 0`, so the `batchSize = 0` guard below marks the
edge of the function's domain and is never reached by callers (the source
always passes 5, and the claims quantify over positive batch sizes only). -/
def processImageBatch (items : List α) (f : α → β) (batchSize : Nat) :
    List β :=
  if batchSize = 0 then []
  else if items.isEmpty then []
  else
    (items.take batchSize).map f ++
      processImageBatch (items.drop batchSize) f batchSize
termination_by items.length
decreasing_by
  rename_i hk hne
  simp only [List.isEmpty_iff] at hne
  have h1 : 0 < items.length := List.length_pos.mpr hne
  simp only [List.length_drop]
  omega

/-! ### Per-file processing (useUnifiedProcessor.ts, processPhotoFile 47-78) -/

deriving instance DecidableEq for Except

/-- The inputs `processPhotoFile` consults on one `File`, with the outcome of
the two fallible external calls (`exifr.parse` and `createThumbnailUrl`)
recorded per file: `exifDate` is the date the EXIF parse would deliver
(`Except.error` when the parser throws, `Except.ok none` when it parses but
yields no usable date), `thumb` is the thumbnail URL `createThumbnailUrl` would
resolve to, or `Except.error` when it rejects (decode / context failure). -/
structure PFile where
  name : Nat
  lastModified : Nat
  size : Nat
  exifDate : Except Unit (Option Int)
  thumb : Except Unit Nat
  deriving DecidableEq

/-- The per-photo result record built by `processPhotoFile` (its `file` field
is omitted: it is the input handle passed through unchanged). -/
structure PhotoRec where
  id : Nat × Nat
  url : Nat
  date : Option Int
  deriving DecidableEq

/-- Model of `processPhotoFile` (useUnifiedProcessor.ts lines 47-78): files above 20 MB
are skipped (`null`); an EXIF failure is caught and leaves `date = null`; a
thumbnail failure is caught and drops the whole photo (`null`); otherwise the
photo record is returned. The surrounding `try`/`catch` makes the function
total: it never rejects. -/
def processPhotoFile (f : PFile) : Option PhotoRec :=
  if 20 * 1024 * 1024 < f.size then none
  else
    let date : Option Int :=
      match f.exifDate with
      | Except.ok d => d
      | Except.error _ => none
    match f.thumb with
    | Except.error _ => none
    | Except.ok u => some { id := (f.name, f.lastModified), url := u, date := date }

/-! ### Date utilities (dateUtils.ts lines 63-78) -/

/-- Model of `getEarliestDate`: filter the valid (non-null) dates; `null` when none
remain, otherwise `Math.min` of their timestamps. -/
def getEarliestDate (dates : List (Option Int)) : Option Int :=
  match dates.filterMap id with
  | [] => none
  | t :: ts => some (ts.foldl min t)

/-- Model of `getLatestDate`: filter the valid (non-null) dates; `null` when none
remain, otherwise `Math.max` of their timestamps. -/
def getLatestDate (dates : List (Option Int)) : Option Int :=
  match dates.filterMap id with
  | [] => none
  | t :: ts => some (ts.foldl max t)

/-! ### Folder assembly and sorting (useUnifiedProcessor.ts 83-107, 172-177) -/

/-- The `DateLogic` policy. -/
inductive DateLogic where
  | earliest
  | latest
  deriving DecidableEq

/-- The `Folder` record as far as processing is concerned (folder names are
modelled as numeric tokens). -/
structure FolderRec where
  id : Nat
  originalName : Nat
  photos : List PhotoRec
  representativeDate : Option Int
  isRenamed : Bool
  deriving DecidableEq

/-- The photo results of a group that survived processing (the non-null ones,
`validPhotoResults` in the source). -/
def survivors (photoResults : List (Option PhotoRec)) : List PhotoRec :=
  photoResults.filterMap id

/-- The valid (non-null) dates of a list of photo records (`validDates`). -/
def validTimes (photos : List PhotoRec) : List Int :=
  (photos.map (fun p => p.date)).filterMap id

/-- Model of `processFolderData` (useUnifiedProcessor.ts lines 83-107): `null` when no
photo survived, otherwise a folder whose photos are exactly the survivors and
whose representative date is the earliest or latest valid photo date. -/
def processFolderData (photoResults : List (Option PhotoRec))
    (folderName : Nat) (dl : DateLogic) : Option FolderRec :=
  let valid := survivors photoResults
  if valid.length = 0 then none
  else
    some
      { id := folderName
        originalName := folderName
        photos := valid
        representativeDate :=
          match dl with
          | DateLogic.earliest => getEarliestDate (valid.map (fun p => p.date))
          | DateLogic.latest => getLatestDate (valid.map (fun p => p.date))
        isRenamed := false }

/-- The comparator passed to `Array.prototype.sort` in
`useUnifiedProcessor.ts` lines 172-177 (both-null gives 0, a null sorts after
any date, two dates compare by timestamp difference). -/
def unifiedCmp (a b : FolderRec) : Int :=
  match a.representativeDate, b.representativeDate with
  | none, none => 0
  | none, some _ => 1
  | some _, none => -1
  | some x, some y => x - y

/-- The order induced by `unifiedCmp`: `a` may be placed before `b` exactly
when the comparator is non-positive. -/
def unifiedLe (a b : FolderRec) : Prop := unifiedCmp a b ≤ 0

instance : DecidableRel unifiedLe := fun _ _ => Int.decLe _ _

/-- The final sort of `useUnifiedProcessor` (`Array.prototype.sort` is stable,
modelled by stable insertion sort). -/
def sortFolders (l : List FolderRec) : List FolderRec :=
  List.insertionSort unifiedLe l

/-- The comparator of the worker-based processor (`handleMessage` done case,
useFolderProcessor): it has no both-null case, so for two null-date folders it
answers 1 whichever way the pair is presented. -/
def workerCmp (a b : FolderRec) : Int :=
  match a.representativeDate with
  | none => 1
  | some x =>
    match b.representativeDate with
    | none => -1
    | some y => x - y

/-- The order induced by `workerCmp`. -/
def workerLe (a b : FolderRec) : Prop := workerCmp a b ≤ 0

instance : DecidableRel workerLe := fun _ _ => Int.decLe _ _

/-- The final sort of the worker-based processor under the same stable-sort
semantics. -/
def sortFoldersWorker (l : List FolderRec) : List FolderRec :=
  List.insertionSort workerLe l

/-! ### LazyThumbnailCache (useLazyThumbnails) -/

/-- One entry of the `thumbnailUrls` map: the file key, the display URL and the
`lastUsed` timestamp. -/
structure LEntry where
  file : Nat
  url : Nat
  lastUsed : Int
  deriving DecidableEq

/-- Capacity of the lazy thumbnail cache (`MAX_CACHE_SIZE` in
useLazyThumbnails). -/
def MAX_LAZY_CACHE : Nat := 50

/-- The max-age threshold of the periodic sweep: five minutes in
milliseconds. -/
def FIVE_MINUTES : Int := 5 * 60 * 1000

/-- The order induced by the sweep's sort comparator
`(a, b) => b.lastUsed - a.lastUsed` (descending by last use): `a` may be
placed before `b` exactly when the comparator is non-positive. -/
def lazyLe (a b : LEntry) : Prop := b.lastUsed - a.lastUsed ≤ 0

instance : DecidableRel lazyLe := fun _ _ => Int.decLe _ _

/-- Rule (a) of the periodic sweep in `scheduleCleanup` (useLazyThumbnails):
the `toRemove` slice — sort a snapshot of the entries by `lastUsed` descending
(`(a, b) => b.lastUsed - a.lastUsed`, a stable sort) and, when more than
`MAX_CACHE_SIZE` entries exist, take everything past the 50 most recently
used; otherwise nothing is removed. -/
def sweepRemoveA (entries : List LEntry) : List LEntry :=
  if MAX_LAZY_CACHE < (List.insertionSort lazyLe entries).length
  then (List.insertionSort lazyLe entries).drop MAX_LAZY_CACHE else []

/-- Rule (b) of the periodic sweep: every entry of the same pre-sweep snapshot
whose `lastUsed` lies strictly before `now - FIVE_MINUTES`. -/
def sweepRemoveB (entries : List LEntry) (now : Int) : List LEntry :=
  entries.filter (fun e => decide (e.lastUsed < now - FIVE_MINUTES))

/-- The body of the periodic sweep timer in `scheduleCleanup`
(useLazyThumbnails): rule (a) revokes the URL of every entry in its removal
slice and deletes that file from the map; rule (b) then walks the pre-sweep
snapshot again and revokes and deletes every stale entry. Returns the
remaining entries and every URL passed to `URL.revokeObjectURL`, in order and
with multiplicity — rule (b) re-revokes an entry already handled by rule (a),
because it iterates the stale snapshot (map deletion, in contrast, is an
idempotent no-op the second time). -/
def sweepCleanup (entries : List LEntry) (now : Int) : List LEntry × List Nat :=
  let afterA := entries.filter
    (fun e => decide (e.file ∉ (sweepRemoveA entries).map (fun r => r.file)))
  let final := afterA.filter
    (fun e => decide (e.file ∉ (sweepRemoveB entries now).map (fun r => r.file)))
  (final,
    (sweepRemoveA entries).map (fun r => r.url)
      ++ (sweepRemoveB entries now).map (fun r => r.url))

/-- The observable state of one `useLazyThumbnails` session: the
`thumbnailUrls` map, the allocator for fresh object URLs, and two ledgers
recording every URL this session ever created and every revocation it
performed (with multiplicity). -/
structure LazyState where
  entries : List LEntry
  nextUrl : Nat
  created : List Nat
  revoked : List Nat
  deriving DecidableEq

/-- The empty session state. -/
def lazyInit : LazyState :=
  { entries := [], nextUrl := 0, created := [], revoked := [] }

/-- The `Map.set` semantics on the entry list: update in place when the file is
already a key (keeping its position), otherwise append. -/
def lazySetEntry (entries : List LEntry) (file url : Nat) (now : Int) :
    List LEntry :=
  if entries.any (fun e => e.file == file) then
    entries.map (fun e =>
      if e.file == file then { e with url := url, lastUsed := now } else e)
  else entries ++ [{ file := file, url := url, lastUsed := now }]

/-- Model of `getThumbnailUrl` (useLazyThumbnails): a hit refreshes `lastUsed` and
returns the cached URL; a miss under memory pressure (`high = true`) stores and
returns a temporary placeholder URL for the file while the asynchronous
`createThumbnailUrl` call is in flight; a normal miss creates and stores a
fresh URL. The returned Boolean records whether the high-memory path was
taken. -/
def getThumbnailUrl (high : Bool) (file : Nat) (now : Int) (s : LazyState) :
    LazyState × Nat × Bool :=
  match s.entries.find? (fun e => e.file == file) with
  | some e =>
    ({ s with entries := s.entries.map (fun x =>
        if x.file == file then { x with lastUsed := now } else x) },
      e.url, false)
  | none =>
    if high then
      let tempUrl := s.nextUrl
      ({ s with
          entries := lazySetEntry s.entries file tempUrl now
          nextUrl := s.nextUrl + 1
          created := s.created ++ [tempUrl] },
        tempUrl, true)
    else
      let url := s.nextUrl
      ({ s with
          entries := lazySetEntry s.entries file url now
          nextUrl := s.nextUrl + 1
          created := s.created ++ [url] },
        url, false)

/-- The continuation of the high-memory path: when the asynchronous
`memoryManager.createThumbnailUrl(file)` promise resolves with `effUrl`, the
cache entry for the file is overwritten with it — without revoking the
placeholder URL the entry held until now. -/
def resolveEfficientThumbnail (file effUrl : Nat) (now : Int)
    (s : LazyState) : LazyState :=
  { s with entries := lazySetEntry s.entries file effUrl now }

/-! ### Order-theoretic facts about the sort comparators -/

instance : IsTotal LEntry lazyLe :=
  ⟨fun a b => by unfold lazyLe; omega⟩

instance : IsTrans LEntry lazyLe :=
  ⟨fun a b c hab hbc => by unfold lazyLe at *; omega⟩

instance : IsTotal FolderRec unifiedLe :=
  ⟨by
    intro a b
    unfold unifiedLe unifiedCmp
    cases ha : a.representativeDate <;> cases hb : b.representativeDate <;>
      simp <;> omega⟩

instance : IsTrans FolderRec unifiedLe :=
  ⟨by
    intro a b c hab hbc
    unfold unifiedLe unifiedCmp at *
    cases ha : a.representativeDate <;> cases hb : b.representativeDate <;>
      cases hc : c.representativeDate <;>
      first
      | (simp_all; omega)
      | simp_all
      | omega⟩

/-! ### Concrete states used to evaluate the code on specific inputs -/

/-- A canvas cache holding exactly `MAX_CACHE_SIZE` distinct keys. -/
def demoFullCache : List (Nat × Nat) := (List.range 50).map (fun i => (i, i))

/-- A manager state whose canvas cache holds a single entry. -/
def mmOddCache : MMState :=
  { objectUrls := [], canvasCache := [(0, 0)], cleanupCallbacks := [],
    isMonitoring := false }

/-- A manager state with one tracked URL, one cached canvas and one throwing
cleanup callback. -/
def mmDemo : MMState :=
  { objectUrls := [7], canvasCache := [(1, 1)],
    cleanupCallbacks := [Except.error ()], isMonitoring := true }

/-- A file whose thumbnail creation fails (decode / context error). -/
def demoThumbFail : PFile :=
  { name := 1, lastModified := 1, size := 0,
    exifDate := Except.ok (some 5), thumb := Except.error () }

/-- A file whose EXIF parse throws but whose thumbnail succeeds. -/
def demoExifFail : PFile :=
  { name := 2, lastModified := 2, size := 0,
    exifDate := Except.error (), thumb := Except.ok 11 }

/-- Per-photo results of a small demo group: two survivors with dates 5 and 3
around one failed file. -/
def demoResults : List (Option PhotoRec) :=
  [some { id := (1, 1), url := 10, date := some 5 },
   none,
   some { id := (2, 2), url := 11, date := some 3 }]

/-- The folder `processFolderData` produces from `demoResults` under the
earliest-date policy. -/
def demoFolder : FolderRec :=
  { id := 4, originalName := 4,
    photos := [{ id := (1, 1), url := 10, date := some 5 },
               { id := (2, 2), url := 11, date := some 3 }],
    representativeDate := some 3, isRenamed := false }

/-- A folder with no representative date. -/
def folderNullA : FolderRec :=
  { id := 0, originalName := 0, photos := [], representativeDate := none,
    isRenamed := false }

/-- A second, distinct folder with no representative date, produced by a later
group of the same run. -/
def folderNullB : FolderRec :=
  { id := 1, originalName := 1, photos := [], representativeDate := none,
    isRenamed := false }

/-- A folder dated 9. -/
def folderDated : FolderRec :=
  { id := 2, originalName := 2, photos := [], representativeDate := some 9,
    isRenamed := false }

/-- A small run result: a dated folder, then two null-date folders. -/
def demoFolders : List FolderRec := [folderDated, folderNullA, folderNullB]

/-- A lazy-cache entry that is both the least recently used one and stale
(five minutes past its last use by sweep time). -/
def demoStale : LEntry := { file := 0, url := 100, lastUsed := 0 }

/-- A recently used lazy-cache entry. -/
def demoFresh (i : Nat) : LEntry :=
  { file := i, url := 100 + i, lastUsed := 999999 }

/-- Fifty-one lazy-cache entries - one over capacity - whose stale first entry is hit
by both sweep rules at `now = 1000000`. -/
def demoEntries : List LEntry :=
  demoStale :: (List.range 50).map (fun i => demoFresh (i + 1))

/-- The session state after a cache miss under memory pressure: the
high-memory path of `getThumbnailUrl` stores a placeholder URL for file 7. -/
def leakStep1 : LazyState × Nat × Bool := getThumbnailUrl true 7 0 lazyInit

/-- The session state after the asynchronous `createThumbnailUrl` promise for
file 7 resolves (with the manager-produced URL 999) and overwrites the cache
entry. -/
def leakState : LazyState := resolveEfficientThumbnail 7 999 1 leakStep1.1

/-! ### Helper lemmas -/

lemma runCallbacksCaught_eq_length :
    ∀ cbs : List CleanupCallback, runCallbacksCaught cbs = cbs.length := by
  intro cbs
  induction cbs with
  | nil => rfl
  | cons cb rest ih =>
    cases cb <;> simp [runCallbacksCaught, ih]

lemma canvasCacheInsert_length_le (cache : List (Nat × Nat)) (key val : Nat)
    (h : cache.length ≤ MAX_CACHE_SIZE) :
    (canvasCacheInsert cache key val).length ≤ MAX_CACHE_SIZE := by
  by_cases hk : key ∈ cache.map Prod.fst
  · simpa [canvasCacheInsert, hk] using h
  · by_cases hlen : MAX_CACHE_SIZE ≤ cache.length
    · simp only [canvasCacheInsert, if_neg hk, if_pos hlen, List.length_append,
        List.length_drop, List.length_cons, List.length_nil]
      unfold MAX_CACHE_SIZE at *
      omega
    · simp only [canvasCacheInsert, if_neg hk, if_neg hlen, List.length_append,
        List.length_cons, List.length_nil]
      unfold MAX_CACHE_SIZE at *
      omega

lemma processImageBatch_eq_map (f : α → β) (k : Nat) (hk : 0 < k) :
    ∀ (n : Nat) (items : List α), items.length ≤ n →
      processImageBatch items f k = items.map f := by
  intro n
  induction n with
  | zero =>
    intro items h
    have hnil : items = [] := List.length_eq_zero.mp (Nat.le_zero.mp h)
    subst hnil
    rw [processImageBatch]
    simp [hk.ne']
  | succ n ih =>
    intro items h
    rw [processImageBatch]
    simp only [if_neg hk.ne']
    by_cases he : items.isEmpty
    · rw [if_pos he]
      rw [List.isEmpty_iff.mp he]
      rfl
    · rw [if_neg he]
      rw [ih (items.drop k)]
      · rw [← List.map_append, List.take_append_drop]
      · have hpos : 0 < items.length := by
          cases items
          · simp at he
          · simp
        simp only [List.length_drop]
        omega

/-! ### Claim theorems -/

/-- C2: for every sequence of insertions into the canvas cache via
`createThumbnailUrl` with capacity 50, the cache size after each operation is
at most 50, and an insertion that arrives while the cache is at capacity
evicts exactly the earliest-inserted entry (the head of the insertion-ordered
map), before the new entry is appended. -/
theorem claim_C2_canvas_cache_fifo_bounded (ops : List (Nat × Nat)) :
    (canvasCacheRun ops).length ≤ MAX_CACHE_SIZE
  ∧ (∀ (cache : List (Nat × Nat)) (key val : Nat),
      cache.length = MAX_CACHE_SIZE →
      key ∉ cache.map Prod.fst →
      canvasCacheInsert cache key val = cache.drop 1 ++ [(key, val)]) := by
  constructor
  · have H : ∀ (l : List (Nat × Nat)) (c : List (Nat × Nat)),
        c.length ≤ MAX_CACHE_SIZE →
        (l.foldl (fun c kv => canvasCacheInsert c kv.1 kv.2) c).length
          ≤ MAX_CACHE_SIZE := by
      intro l
      induction l with
      | nil => intro c hc; simpa using hc
      | cons kv rest ih =>
        intro c hc
        exact ih _ (canvasCacheInsert_length_le _ _ _ hc)
    exact H ops [] (by simp [MAX_CACHE_SIZE])
  · intro cache key val hfull hmiss
    simp [canvasCacheInsert, hmiss, hfull]

/-- C2 witness: a concrete two-insertion run stays within capacity, and an
insertion into a concrete full cache evicts exactly its first entry. -/
theorem claim_C2_witness :
    (canvasCacheRun [(1, 1), (2, 2)]).length ≤ MAX_CACHE_SIZE
  ∧ canvasCacheInsert demoFullCache 999 0 = demoFullCache.drop 1 ++ [(999, 0)] :=
  ⟨(claim_C2_canvas_cache_fifo_bounded [(1, 1), (2, 2)]).1,
   (claim_C2_canvas_cache_fifo_bounded []).2 demoFullCache 999 0 (by decide)
     (by decide)⟩

/-- C3 counterexample: on a pre-cleanup state whose canvas cache holds one
entry, `performEmergencyCleanup` removes `floor(1/2) = 0` entries, so the
post-cleanup cache size (1) is not at most half the pre-cleanup size — neither
in the rational sense (2·1 ≤ 1 fails) nor in the floor sense (1 ≤ 1/2 = 0
fails). -/
theorem claim_C3_counterexample :
    ¬ (2 * (performEmergencyCleanup mmOddCache).state.canvasCache.length
        ≤ mmOddCache.canvasCache.length)
  ∧ ¬ ((performEmergencyCleanup mmOddCache).state.canvasCache.length
        ≤ mmOddCache.canvasCache.length / 2) := by
  decide

/-- C3 amended: `performEmergencyCleanup` removes exactly the oldest
`floor(n/2)` canvas-cache entries, leaving `n - floor(n/2)` (at most half only
when the pre-cleanup size is even); it trims the tracked object URLs to the
most recent 20, revoking exactly the removed prefix; it invokes every
registered cleanup callback (throwing callbacks are caught); and it is a total
function of the pre-cleanup state — it never throws. -/
theorem claim_C3_emergency_cleanup (s : MMState) :
    (performEmergencyCleanup s).state.canvasCache
        = s.canvasCache.drop (s.canvasCache.length / 2)
  ∧ (performEmergencyCleanup s).state.canvasCache.length
        = s.canvasCache.length - s.canvasCache.length / 2
  ∧ (performEmergencyCleanup s).state.objectUrls
        = s.objectUrls.drop (s.objectUrls.length - 20)
  ∧ (performEmergencyCleanup s).state.objectUrls.length ≤ 20
  ∧ (performEmergencyCleanup s).revoked
        = s.objectUrls.take (s.objectUrls.length - 20)
  ∧ (performEmergencyCleanup s).callbacksRun = s.cleanupCallbacks.length := by
  have hurls : (performEmergencyCleanup s).state.objectUrls
      = s.objectUrls.drop (s.objectUrls.length - 20) := by
    by_cases h : 20 < s.objectUrls.length
    · simp [performEmergencyCleanup, h]
    · have h0 : s.objectUrls.length - 20 = 0 := by omega
      simp [performEmergencyCleanup, h, h0]
  refine ⟨?_, ?_, hurls, ?_, ?_, ?_⟩
  · simp [performEmergencyCleanup]
  · simp [performEmergencyCleanup, List.length_drop]
  · rw [hurls]
    simp only [List.length_drop]
    omega
  · by_cases h : 20 < s.objectUrls.length
    · simp [performEmergencyCleanup, h]
    · have h0 : s.objectUrls.length - 20 = 0 := by omega
      simp [performEmergencyCleanup, h, h0]
  · simpa [performEmergencyCleanup] using
      runCallbacksCaught_eq_length s.cleanupCallbacks

/-- C9: revoking an untracked handle is a silent no-op; after `cleanup()` the
tracked set and the canvas cache are empty and monitoring is stopped; revoking
any member of the pre-cleanup tracked set on the post-cleanup state is a
no-op; and a second `cleanup()` leaves the very same state and revokes
nothing — cleanup is idempotent. -/
theorem claim_C9_revoke_noop_cleanup_idempotent (s : MMState) (u v : Nat)
    (hu : u ∉ s.objectUrls) (hv : v ∈ s.objectUrls) :
    revokeObjectUrl s u = (s, [])
  ∧ (cleanup s).state.objectUrls = []
  ∧ (cleanup s).state.canvasCache = []
  ∧ (cleanup s).state.isMonitoring = false
  ∧ (cleanup s).revoked = s.objectUrls
  ∧ revokeObjectUrl (cleanup s).state v = ((cleanup s).state, [])
  ∧ (cleanup (cleanup s).state).state = (cleanup s).state
  ∧ (cleanup (cleanup s).state).revoked = [] := by
  refine ⟨?_, rfl, rfl, rfl, rfl, ?_, rfl, rfl⟩
  · simp [revokeObjectUrl, hu]
  · simp [revokeObjectUrl, cleanup]

/-- C9 witness: the theorem evaluated on a concrete one-URL state, with the
untracked handle 3 and the tracked handle 7. -/
theorem claim_C9_witness :
    revokeObjectUrl mmDemo 3 = (mmDemo, [])
  ∧ (cleanup mmDemo).state.objectUrls = []
  ∧ (cleanup mmDemo).state.canvasCache = []
  ∧ (cleanup mmDemo).state.isMonitoring = false
  ∧ (cleanup mmDemo).revoked = mmDemo.objectUrls
  ∧ revokeObjectUrl (cleanup mmDemo).state 7 = ((cleanup mmDemo).state, [])
  ∧ (cleanup (cleanup mmDemo).state).state = (cleanup mmDemo).state
  ∧ (cleanup (cleanup mmDemo).state).revoked = [] :=
  claim_C9_revoke_noop_cleanup_idempotent mmDemo 3 7 (by decide) (by decide)

/-- C10: without host heap introspection (`performance.memory` absent),
`getMemoryStats` returns a sample with `systemMemory` omitted,
`isMemoryUsageHigh` is always false, a monitoring tick leaves the manager
state untouched and revokes nothing (no emergency cleanup), and
`getThumbnailUrl` never takes the high-memory (MemoryManager) creation
path. -/
theorem claim_C10_no_heap_introspection (s : MMState) (ls : LazyState)
    (file : Nat) (now : Int) :
    (getMemoryStats none s).systemMemory = none
  ∧ isMemoryUsageHigh none s = false
  ∧ monitorTick none s = { state := s, revoked := [], callbacksRun := 0 }
  ∧ (getThumbnailUrl (isMemoryUsageHigh none s) file now ls).2.2 = false := by
  refine ⟨rfl, rfl, rfl, ?_⟩
  show (getThumbnailUrl false file now ls).2.2 = false
  unfold getThumbnailUrl
  cases h : ls.entries.find? (fun e => e.file == file) <;> simp [h]

/-- C7: batched execution equals a plain map — same result list, same length,
and the i-th result is the processor applied to the i-th item, for every
positive batch size. -/
theorem claim_C7_batching_refines_map (items : List α) (f : α → β) (k : Nat)
    (hk : 0 < k) :
    processImageBatch items f k = items.map f
  ∧ (processImageBatch items f k).length = items.length
  ∧ ∀ i : Nat, (processImageBatch items f k)[i]? = (items[i]?).map f := by
  have h := processImageBatch_eq_map f k hk items.length items le_rfl
  refine ⟨h, by rw [h]; simp, fun i => by rw [h]; simp⟩

/-- C7 witness: a three-item list processed with batch size 2 gives exactly
the mapped results. -/
theorem claim_C7_witness :
    processImageBatch [1, 2, 3] (fun n => n + 1) 2 = [2, 3, 4]
  ∧ (processImageBatch [1, 2, 3] (fun n => n + 1) 2).length = 3 := by
  have h := claim_C7_batching_refines_map [1, 2, 3] (fun n => n + 1) 2
    (by decide)
  exact ⟨by rw [h.1]; rfl, h.2.1⟩

/-- C4: per-file failures are isolated. A thumbnail-creation failure
(decode/context error) makes `processPhotoFile` return `null` for that file
only; an EXIF failure is non-fatal and merely leaves the date `null`; and the
batched pipeline is a plain map of the (total, never-rejecting) per-file
function, so one failed item never perturbs the results of the other items in
its batch or the rest of the run. -/
theorem claim_C4_per_file_failure_isolation (files : List PFile) (k : Nat)
    (hk : 0 < k) (f : PFile) :
    (f.thumb = Except.error () → processPhotoFile f = none)
  ∧ (f.exifDate = Except.error () → f.size ≤ 20 * 1024 * 1024 →
      ∀ u, f.thumb = Except.ok u →
        processPhotoFile f
          = some { id := (f.name, f.lastModified), url := u, date := none })
  ∧ processImageBatch files processPhotoFile k = files.map processPhotoFile
  ∧ ∀ i : Nat,
      (processImageBatch files processPhotoFile k)[i]?
        = (files[i]?).map processPhotoFile := by
  have hmap := processImageBatch_eq_map processPhotoFile k hk files.length
    files le_rfl
  refine ⟨?_, ?_, hmap, fun i => by rw [hmap]; simp⟩
  · intro ht
    by_cases hs : 20 * 1024 * 1024 < f.size <;> simp [processPhotoFile, hs, ht]
  · intro he hs u ht
    simp [processPhotoFile, Nat.not_lt.mpr hs, he, ht]

/-- C4 witness: in a concrete two-file batch, the file with the failing
thumbnail yields `null`, while the file with the failing EXIF parse still
yields a photo with a `null` date; the batch result is exactly the map. -/
theorem claim_C4_witness :
    processPhotoFile demoThumbFail = none
  ∧ processPhotoFile demoExifFail
      = some { id := (2, 2), url := 11, date := none }
  ∧ processImageBatch [demoThumbFail, demoExifFail] processPhotoFile 5
      = [demoThumbFail, demoExifFail].map processPhotoFile := by
  have h1 := claim_C4_per_file_failure_isolation
    [demoThumbFail, demoExifFail] 5 (by decide) demoThumbFail
  have h2 := claim_C4_per_file_failure_isolation
    [demoThumbFail, demoExifFail] 5 (by decide) demoExifFail
  exact ⟨h1.1 rfl, h2.2.1 rfl (by decide) 11 rfl, h1.2.2.1⟩

lemma foldl_min_mem : ∀ (ts : List Int) (t : Int), ts.foldl min t ∈ t :: ts := by
  intro ts
  induction ts with
  | nil => intro t; simp
  | cons a ts ih =>
    intro t
    simp only [List.foldl_cons]
    rcases List.mem_cons.mp (ih (min t a)) with h1 | h1
    · rcases min_choice t a with hc | hc
      · rw [h1, hc]; exact List.mem_cons_self _ _
      · rw [h1, hc]; exact List.mem_cons_of_mem _ (List.mem_cons_self _ _)
    · exact List.mem_cons_of_mem _ (List.mem_cons_of_mem _ h1)

lemma foldl_min_le :
    ∀ (ts : List Int) (t : Int), ∀ d ∈ t :: ts, ts.foldl min t ≤ d := by
  intro ts
  induction ts with
  | nil =>
    intro t d hd
    simp only [List.mem_singleton] at hd
    simp [hd]
  | cons a ts ih =>
    intro t d hd
    simp only [List.foldl_cons]
    have hta : ts.foldl min (min t a) ≤ min t a :=
      ih (min t a) _ (List.mem_cons_self _ _)
    rcases List.mem_cons.mp hd with h1 | h1
    · rw [h1]; exact le_trans hta (min_le_left _ _)
    · rcases List.mem_cons.mp h1 with h2 | h2
      · rw [h2]; exact le_trans hta (min_le_right _ _)
      · exact ih (min t a) d (List.mem_cons_of_mem _ h2)

lemma foldl_max_mem : ∀ (ts : List Int) (t : Int), ts.foldl max t ∈ t :: ts := by
  intro ts
  induction ts with
  | nil => intro t; simp
  | cons a ts ih =>
    intro t
    simp only [List.foldl_cons]
    rcases List.mem_cons.mp (ih (max t a)) with h1 | h1
    · rcases max_choice t a with hc | hc
      · rw [h1, hc]; exact List.mem_cons_self _ _
      · rw [h1, hc]; exact List.mem_cons_of_mem _ (List.mem_cons_self _ _)
    · exact List.mem_cons_of_mem _ (List.mem_cons_of_mem _ h1)

lemma foldl_max_ge :
    ∀ (ts : List Int) (t : Int), ∀ d ∈ t :: ts, d ≤ ts.foldl max t := by
  intro ts
  induction ts with
  | nil =>
    intro t d hd
    simp only [List.mem_singleton] at hd
    simp [hd]
  | cons a ts ih =>
    intro t d hd
    simp only [List.foldl_cons]
    have hta : max t a ≤ ts.foldl max (max t a) :=
      ih (max t a) _ (List.mem_cons_self _ _)
    rcases List.mem_cons.mp hd with h1 | h1
    · rw [h1]; exact le_trans (le_max_left _ _) hta
    · rcases List.mem_cons.mp h1 with h2 | h2
      · rw [h2]; exact le_trans (le_max_right _ _) hta
      · exact ih (max t a) d (List.mem_cons_of_mem _ h2)

lemma getEarliestDate_spec (dates : List (Option Int)) :
    (dates.filterMap id = [] → getEarliestDate dates = none)
  ∧ (∀ m, getEarliestDate dates = some m →
      m ∈ dates.filterMap id ∧ ∀ d ∈ dates.filterMap id, m ≤ d)
  ∧ (dates.filterMap id ≠ [] → ∃ m, getEarliestDate dates = some m) := by
  unfold getEarliestDate
  cases h : dates.filterMap id with
  | nil => exact ⟨fun _ => rfl, fun m hm => by simp at hm, fun hne => absurd rfl hne⟩
  | cons t ts =>
    refine ⟨fun habs => absurd habs (by simp), ?_, fun _ => ⟨_, rfl⟩⟩
    intro m hm
    have hm2 : m = ts.foldl min t := by
      simpa using hm.symm
    subst hm2
    exact ⟨foldl_min_mem ts t, foldl_min_le ts t⟩

lemma getLatestDate_spec (dates : List (Option Int)) :
    (dates.filterMap id = [] → getLatestDate dates = none)
  ∧ (∀ m, getLatestDate dates = some m →
      m ∈ dates.filterMap id ∧ ∀ d ∈ dates.filterMap id, d ≤ m)
  ∧ (dates.filterMap id ≠ [] → ∃ m, getLatestDate dates = some m) := by
  unfold getLatestDate
  cases h : dates.filterMap id with
  | nil => exact ⟨fun _ => rfl, fun m hm => by simp at hm, fun hne => absurd rfl hne⟩
  | cons t ts =>
    refine ⟨fun habs => absurd habs (by simp), ?_, fun _ => ⟨_, rfl⟩⟩
    intro m hm
    have hm2 : m = ts.foldl max t := by
      simpa using hm.symm
    subst hm2
    exact ⟨foldl_max_mem ts t, foldl_max_ge ts t⟩

/-- C6: the folder built from a group of per-photo results has a
representative date equal to the minimum (`earliest`) or maximum (`latest`)
of the valid photo dates, is `null` exactly when no photo has a valid date;
a folder record is produced if and only if at least one photo survived, and
its photo count equals the number of surviving (non-null) results. -/
theorem claim_C6_representative_date (results : List (Option PhotoRec))
    (name : Nat) (dl : DateLogic) :
    (survivors results = [] → processFolderData results name dl = none)
  ∧ (survivors results ≠ [] →
      ∃ folder, processFolderData results name dl = some folder)
  ∧ (∀ folder, processFolderData results name dl = some folder →
      folder.photos = survivors results
      ∧ folder.photos.length = (survivors results).length
      ∧ (validTimes (survivors results) = [] →
          folder.representativeDate = none)
      ∧ (validTimes (survivors results) ≠ [] →
          ∃ m, folder.representativeDate = some m)
      ∧ (∀ m, folder.representativeDate = some m →
          m ∈ validTimes (survivors results)
          ∧ (dl = DateLogic.earliest →
              ∀ d ∈ validTimes (survivors results), m ≤ d)
          ∧ (dl = DateLogic.latest →
              ∀ d ∈ validTimes (survivors results), d ≤ m))) := by
  by_cases hempty : survivors results = []
  · refine ⟨fun _ => ?_, fun hne => absurd hempty hne, ?_⟩
    · simp [processFolderData, hempty]
    · intro folder hf
      rw [processFolderData.eq_def] at hf
      simp [hempty] at hf
  · have hlen : ¬ (survivors results).length = 0 := by
      simpa [List.length_eq_zero] using hempty
    have hsome : processFolderData results name dl
        = some
          { id := name, originalName := name,
            photos := survivors results,
            representativeDate :=
              match dl with
              | DateLogic.earliest =>
                getEarliestDate ((survivors results).map (fun p => p.date))
              | DateLogic.latest =>
                getLatestDate ((survivors results).map (fun p => p.date)),
            isRenamed := false } := by
      rw [processFolderData.eq_def]
      simp [hlen]
    refine ⟨fun h => absurd h hempty, fun _ => ⟨_, hsome⟩, ?_⟩
    intro folder hf
    rw [hsome] at hf
    have hfolder := Option.some_injective _ hf
    subst hfolder
    have hvt : validTimes (survivors results)
        = ((survivors results).map (fun p => p.date)).filterMap id := rfl
    cases dl with
    | earliest =>
      have hspec :=
        getEarliestDate_spec ((survivors results).map (fun p => p.date))
      refine ⟨rfl, rfl, ?_, ?_, ?_⟩
      · intro hnil
        exact hspec.1 (by rw [← hvt]; exact hnil)
      · intro hne
        exact hspec.2.2 (by rw [← hvt]; exact hne)
      · intro m hm
        have h2 := hspec.2.1 m hm
        rw [← hvt] at h2
        exact ⟨h2.1, fun _ => h2.2, fun habs => absurd habs (by decide)⟩
    | latest =>
      have hspec :=
        getLatestDate_spec ((survivors results).map (fun p => p.date))
      refine ⟨rfl, rfl, ?_, ?_, ?_⟩
      · intro hnil
        exact hspec.1 (by rw [← hvt]; exact hnil)
      · intro hne
        exact hspec.2.2 (by rw [← hvt]; exact hne)
      · intro m hm
        have h2 := hspec.2.1 m hm
        rw [← hvt] at h2
        exact ⟨h2.1, fun habs => absurd habs (by decide), fun _ => h2.2⟩

/-- C6 witness: the empty group produces no folder; the concrete demo group
(survivor dates 5 and 3, one failed file) produces a folder whose earliest
representative date 3 is a valid photo date. -/
theorem claim_C6_witness :
    processFolderData [] 0 DateLogic.earliest = none
  ∧ 3 ∈ validTimes (survivors demoResults) := by
  constructor
  · exact (claim_C6_representative_date [] 0 DateLogic.earliest).1 rfl
  · exact (((claim_C6_representative_date demoResults 4
      DateLogic.earliest).2.2 demoFolder (by decide)).2.2.2.2 3 (by decide)).1

lemma unifiedLe_of_eq_dates {a b : FolderRec}
    (h : a.representativeDate = b.representativeDate) : unifiedLe a b := by
  unfold unifiedLe unifiedCmp
  rw [h]
  cases hb : b.representativeDate <;> simp

lemma filter_orderedInsert_unified (k : Option Int) (a : FolderRec) :
    ∀ l : List FolderRec,
      (List.orderedInsert unifiedLe a l).filter
          (fun f => decide (f.representativeDate = k))
        = ((a :: l).filter (fun f => decide (f.representativeDate = k))) := by
  intro l
  induction l with
  | nil => rfl
  | cons b l ih =>
    by_cases hab : unifiedLe a b
    · rw [List.orderedInsert_of_le _ _ hab]
    · have hne : a.representativeDate ≠ b.representativeDate :=
        fun he => hab (unifiedLe_of_eq_dates he)
      simp only [List.orderedInsert, if_neg hab]
      by_cases hpa : a.representativeDate = k
      · by_cases hpb : b.representativeDate = k
        · exact absurd (hpa.trans hpb.symm) hne
        · simp [List.filter_cons, hpa, hpb, ih]
      · by_cases hpb : b.representativeDate = k
        · simp [List.filter_cons, hpa, hpb, ih]
        · simp [List.filter_cons, hpa, hpb, ih]

lemma filter_sortFolders (k : Option Int) :
    ∀ l : List FolderRec,
      (sortFolders l).filter (fun f => decide (f.representativeDate = k))
        = l.filter (fun f => decide (f.representativeDate = k)) := by
  intro l
  induction l with
  | nil => rfl
  | cons a l ih =>
    show (List.orderedInsert unifiedLe a (List.insertionSort unifiedLe l)).filter
        (fun f => decide (f.representativeDate = k)) = _
    rw [filter_orderedInsert_unified, List.filter_cons, List.filter_cons]
    have ih2 : (List.insertionSort unifiedLe l).filter
        (fun f => decide (f.representativeDate = k))
          = l.filter (fun f => decide (f.representativeDate = k)) := ih
    rw [ih2]

/-- C5 counterexample: in the worker-based processor the comparator has no
both-null case, so for two distinct null-date folders it answers 1 both ways
(an inconsistent comparator); under the stable-sort semantics of
`Array.prototype.sort` the two folders come out swapped, so two folders with
null dates do not keep their relative group-processing order. -/
theorem claim_C5_counterexample :
    folderNullA.representativeDate = none
  ∧ folderNullB.representativeDate = none
  ∧ folderNullA ≠ folderNullB
  ∧ workerCmp folderNullA folderNullB = 1
  ∧ workerCmp folderNullB folderNullA = 1
  ∧ sortFoldersWorker [folderNullA, folderNullB]
      = [folderNullB, folderNullA]
  ∧ sortFoldersWorker [folderNullA, folderNullB]
      ≠ [folderNullA, folderNullB] := by
  decide

/-- C5 amended: in the `useUnifiedProcessor` path (whose comparator handles
the both-null case) the final ordering is a permutation of the folder list,
sorted by the comparator — dates ascending, every null-date folder after every
dated folder — and stable: for every date key, the subsequence of folders
carrying that key (in particular, equal dates, or both null) is exactly the
one of the input, so such folders keep their relative group-processing order.
The worker-based path gives no such guarantee: its comparator is inconsistent
on both-null pairs, so ECMA-262 leaves that sort order implementation-defined,
and under stable-sort semantics a both-null pair comes out swapped. -/
theorem claim_C5_sorted_stable (l : List FolderRec) :
    (sortFolders l).Perm l
  ∧ (sortFolders l).Pairwise unifiedLe
  ∧ (∀ k : Option Int,
      (sortFolders l).filter (fun f => decide (f.representativeDate = k))
        = l.filter (fun f => decide (f.representativeDate = k)))
  ∧ (sortFolders l).Pairwise (fun a b =>
      a.representativeDate = none → b.representativeDate = none)
  ∧ (sortFolders l).Pairwise (fun a b => ∀ x y,
      a.representativeDate = some x → b.representativeDate = some y →
        x ≤ y) := by
  have hpair : (sortFolders l).Pairwise unifiedLe :=
    List.sorted_insertionSort unifiedLe l
  refine ⟨List.perm_insertionSort unifiedLe l, hpair,
    fun k => filter_sortFolders k l, ?_, ?_⟩
  · refine hpair.imp ?_
    intro a b hab ha
    cases hb : b.representativeDate with
    | none => rfl
    | some y =>
      unfold unifiedLe unifiedCmp at hab
      rw [ha, hb] at hab
      simp at hab
  · refine hpair.imp ?_
    intro a b hab x y hax hby
    unfold unifiedLe unifiedCmp at hab
    rw [hax, hby] at hab
    simp at hab
    omega

/-- C5 witness: on the concrete demo run result, the sorted output is a
permutation of the input and the null-date folders keep their relative
order. -/
theorem claim_C5_witness :
    (sortFolders demoFolders).Perm demoFolders
  ∧ (sortFolders demoFolders).filter
      (fun f => decide (f.representativeDate = none))
        = demoFolders.filter (fun f => decide (f.representativeDate = none)) :=
  ⟨(claim_C5_sorted_stable demoFolders).1,
   (claim_C5_sorted_stable demoFolders).2.2.1 none⟩

lemma length_filter_compl (p : α → Bool) :
    ∀ l : List α,
      (l.filter p).length + (l.filter (fun x => !(p x))).length = l.length := by
  intro l
  induction l with
  | nil => rfl
  | cons a l ih =>
    cases h : p a <;> simp [List.filter_cons, h] <;> omega

/-- C8: on every sweep of the lazy thumbnail cache (assuming the map
invariant that file keys are distinct), the surviving entry count is at most
the capacity 50; when the cache is over capacity, rule (a) removes exactly the
part of the descending-by-last-use order beyond the 50 most recently used
entries — every removed entry was used no later than every kept one — and
each of its entries has its URL revoked and its file deleted; independently,
rule (b) revokes and deletes every entry whose last use lies more than five
minutes before the sweep; both rules apply on the same sweep. -/
theorem claim_C8_sweep_capacity_and_age (entries : List LEntry) (now : Int)
    (hnd : (entries.map (fun e => e.file)).Nodup) :
    (sweepCleanup entries now).1.length ≤ MAX_LAZY_CACHE
  ∧ (MAX_LAZY_CACHE < entries.length →
      sweepRemoveA entries
          = (List.insertionSort lazyLe entries).drop MAX_LAZY_CACHE
      ∧ ∀ a ∈ (List.insertionSort lazyLe entries).take MAX_LAZY_CACHE,
        ∀ b ∈ sweepRemoveA entries, b.lastUsed ≤ a.lastUsed)
  ∧ (∀ b ∈ sweepRemoveA entries,
      b.url ∈ (sweepCleanup entries now).2
      ∧ ∀ x ∈ (sweepCleanup entries now).1, x.file ≠ b.file)
  ∧ (∀ e ∈ entries, e.lastUsed < now - FIVE_MINUTES →
      e.url ∈ (sweepCleanup entries now).2
      ∧ ∀ x ∈ (sweepCleanup entries now).1, x.file ≠ e.file) := by
  have hfst : (sweepCleanup entries now).1
      = (entries.filter (fun e =>
          decide (e.file ∉ (sweepRemoveA entries).map (fun r => r.file)))).filter
        (fun e =>
          decide (e.file ∉ (sweepRemoveB entries now).map (fun r => r.file))) :=
    rfl
  have hsnd : (sweepCleanup entries now).2
      = (sweepRemoveA entries).map (fun r => r.url)
        ++ (sweepRemoveB entries now).map (fun r => r.url) := rfl
  have hsortlen : (List.insertionSort lazyLe entries).length = entries.length :=
    (List.perm_insertionSort lazyLe entries).length_eq
  refine ⟨?_, ?_, ?_, ?_⟩
  · -- capacity bound on the surviving entries
    by_cases hbig : MAX_LAZY_CACHE < entries.length
    · have hRA : sweepRemoveA entries
          = (List.insertionSort lazyLe entries).drop MAX_LAZY_CACHE := by
        unfold sweepRemoveA
        rw [if_pos (by rw [hsortlen]; exact hbig)]
      have hndE : entries.Nodup := hnd.of_map
      have hndS : (List.insertionSort lazyLe entries).Nodup :=
        ((List.perm_insertionSort lazyLe entries).nodup_iff).mpr hndE
      have hndRA : (sweepRemoveA entries).Nodup := by
        rw [hRA]
        exact (List.drop_sublist _ _).nodup hndS
      have hsubset : ∀ r ∈ sweepRemoveA entries,
          r ∈ entries.filter (fun x => !(decide
            (x.file ∉ (sweepRemoveA entries).map (fun r => r.file)))) := by
        intro r hr
        rw [List.mem_filter]
        refine ⟨?_, ?_⟩
        · have hrs : r ∈ List.insertionSort lazyLe entries := by
            rw [hRA] at hr
            exact List.mem_of_mem_drop hr
          exact (List.perm_insertionSort lazyLe entries).subset hrs
        · simp only [Bool.not_eq_true', decide_eq_false_iff_not, not_not]
          exact List.mem_map_of_mem _ hr
      have hsubperm := hndRA.subperm hsubset
      have hlenRA : (sweepRemoveA entries).length
          = entries.length - MAX_LAZY_CACHE := by
        rw [hRA, List.length_drop, hsortlen]
      have hlenNot := hsubperm.length_le
      have hcompl := length_filter_compl (fun e =>
        decide (e.file ∉ (sweepRemoveA entries).map (fun r => r.file))) entries
      rw [hfst]
      have hle2 := List.length_filter_le (fun e =>
        decide (e.file ∉ (sweepRemoveB entries now).map (fun r => r.file)))
        ((entries.filter (fun e =>
          decide (e.file ∉ (sweepRemoveA entries).map (fun r => r.file)))))
      omega
    · rw [hfst]
      refine le_trans (List.length_filter_le _ _)
        (le_trans (List.length_filter_le _ _) ?_)
      omega
  · -- rule (a) removes exactly the least-recently-used excess
    intro hbig
    have hRA : sweepRemoveA entries
        = (List.insertionSort lazyLe entries).drop MAX_LAZY_CACHE := by
      unfold sweepRemoveA
      rw [if_pos (by rw [hsortlen]; exact hbig)]
    refine ⟨hRA, ?_⟩
    intro a ha b hb
    have hp : List.Pairwise lazyLe (List.insertionSort lazyLe entries) :=
      List.sorted_insertionSort lazyLe entries
    rw [← List.take_append_drop MAX_LAZY_CACHE
      (List.insertionSort lazyLe entries)] at hp
    have h3 := (List.pairwise_append.mp hp).2.2 a ha b (by rw [← hRA]; exact hb)
    unfold lazyLe at h3
    omega
  · -- every rule-(a) entry is revoked and deleted
    intro b hb
    refine ⟨?_, ?_⟩
    · rw [hsnd]
      exact List.mem_append_left _ (List.mem_map_of_mem _ hb)
    · intro x hx heq
      rw [hfst] at hx
      have hx2 := List.mem_filter.mp hx
      have hxA := List.mem_filter.mp hx2.1
      exact (of_decide_eq_true hxA.2) (heq ▸ List.mem_map_of_mem _ hb)
  · -- every stale entry is revoked and deleted
    intro e he hstale
    have heB : e ∈ sweepRemoveB entries now := by
      unfold sweepRemoveB
      exact List.mem_filter.mpr ⟨he, decide_eq_true hstale⟩
    refine ⟨?_, ?_⟩
    · rw [hsnd]
      exact List.mem_append_right _ (List.mem_map_of_mem _ heB)
    · intro x hx heq
      rw [hfst] at hx
      have hx2 := List.mem_filter.mp hx
      exact (of_decide_eq_true hx2.2) (heq ▸ List.mem_map_of_mem _ heB)

/-- C8 witness: the concrete 51-entry cache (whose first entry is both the
least recently used and stale) is pruned to at most 50 entries by one sweep,
and the stale entry's URL is among the revocations. -/
theorem claim_C8_witness :
    (sweepCleanup demoEntries 1000000).1.length ≤ MAX_LAZY_CACHE
  ∧ 100 ∈ (sweepCleanup demoEntries 1000000).2 := by
  have h := claim_C8_sweep_capacity_and_age demoEntries 1000000 (by decide)
  exact ⟨h.1, (h.2.2.2 demoStale (by decide) (by decide)).1⟩

/-- C1, evaluated at the failing inputs: (leak) after a high-memory-path cache
miss for file 7 the session holds a placeholder URL, and when the asynchronous
efficient-thumbnail promise resolves, the placeholder is overwritten out of
the cache map — it was created, it was never revoked, and it no longer appears
in any cache entry, so no later revocation site (which all draw from the map)
can ever revoke it; (double revoke) one sweep of the concrete 51-entry cache
whose first entry is both beyond capacity and stale passes that entry's URL
(100) to `URL.revokeObjectURL` twice. -/
theorem claim_C1_leak_and_double_revoke :
    leakStep1.2.1 ∈ leakState.created
  ∧ leakStep1.2.1 ∉ leakState.revoked
  ∧ leakStep1.2.1 ∉ leakState.entries.map (fun e => e.url)
  ∧ (sweepCleanup demoEntries 1000000).2.count 100 = 2 := by
  decide

end PhotoOrg
